import Mathlib

/-!
Shallow embedding of `src/Demo/CORTEX_LM3S811_GCC/main.c` (an RTOS temperature
pipeline: pseudo-random sample source, moving-average low-pass filter with a
runtime-reconfigurable window, scrolling 96x16 display renderer, UART command
parser, and task-statistics formatter), together with proofs about the
embedded definitions.

Conventions used throughout:
* C `int` values that carry data (samples, sums) are embedded as `Int`;
  C expressions that are provably non-negative in every reachable state
  (window size, circular-buffer index, sample count, seed) are embedded as
  `Nat`, matching the arithmetic the C code performs on them.
* C truncating division (`/` on `int`) is `Int.tdiv`; C `unsigned int`
  arithmetic is `Nat` arithmetic reduced `% 2 ^ 32` where overflow can occur.
* Each embedded definition cites the source lines it translates.
-/

namespace RTOSLab

/-! ### Constants (main.c lines 25-56) -/

def MIN_TEMPERATURE : Int := 15
def TEMPERATURE_RANGE : Int := 20
def MAX_HEIGHT : Int := 15
def DISPLAY_BUFFER_OFFSET : Nat := 96
def Y_AXIS_HEIGHT : Nat := 16
def X_AXIS_POSITION : Nat := 15
def MULTIPLIER : Nat := 1103515245
def INCREMENT : Nat := 12345
def MAX_WINDOW_SIZE : Nat := 100
def MIN_WINDOW_SIZE : Nat := 10
def INPUT_BUFFER_SIZE : Nat := 10

/-! ### Pseudo-random generator and sample source
(main.c lines 694-699 `pseudorandom`, lines 268-285
`vSimulateTemperatureSensorTask`) -/

/-- The sequence of values taken by the `static unsigned int seed` of
`pseudorandom` (line 696): `seedSeq 0` is the initial seed and
`seedSeq (n+1)` is its value after the `n+1`-st call, with the
`unsigned int` wraparound made explicit as `% 2 ^ 32`. -/
def seedSeq : Nat → Nat
  | 0 => 6789
  | n + 1 => (seedSeq n * MULTIPLIER + INCREMENT) % 2 ^ 32

/-- Return value of the `n`-th call of `pseudorandom` (0-indexed):
`(seed >> 16) & 0x7FFF` after the seed update (lines 697-698). -/
def prngOutput (n : Nat) : Nat := (seedSeq (n + 1) >>> 16) &&& 0x7FFF

/-- The `n`-th temperature sample produced by
`vSimulateTemperatureSensorTask` (line 274):
`MIN_TEMPERATURE + (pseudorandom() % (TEMPERATURE_RANGE + 1))`.
Both operands of the C `%` are non-negative, so it is `Nat.mod`. -/
def sample (n : Nat) : Nat := 15 + prngOutput n % 21

/-! ### The low-pass filter (main.c lines 298-359 `vLowPassFilterTask`) -/

/-- The local state of `vLowPassFilterTask`: the active window size
(line 303), the circular buffer (line 306, embedded as a total function
from slot number to stored value), and `index`, `sum`, `count`
(lines 312-314). -/
structure FilterState where
  window_size : Nat
  buffer : Nat → Int
  index : Nat
  sum : Int
  count : Nat

/-- Filter state right after the reset on lines 322-326 (also the state in
which the task first enters its loop: lines 303-314 with the buffer
allocated from the RTOS heap, whose backing store is a zero-initialized
static array): all slots zero, `index = sum = count = 0`. -/
def resetState (W : Nat) : FilterState where
  window_size := W
  buffer := fun _ => 0
  index := 0
  sum := 0
  count := 0

/-- Lines 318-328: read the shared reconfiguration value `r`; on a change,
adopt it and reset the whole filter state. -/
def checkReconfig (r : Nat) (s : FilterState) : FilterState :=
  if r ≠ s.window_size then resetState r else s

/-- Lines 333-356: receive one raw sample `x` and update the circular
buffer, running sum, write index and count exactly as the C body does,
returning the new state together with the emitted filtered value
`sum / count` (C truncating division, `Int.tdiv`). -/
def processSample (s : FilterState) (x : Int) : FilterState × Int :=
  let sum1 := s.sum - s.buffer s.index
  let buf1 := fun j => if j = s.index then x else s.buffer j
  let sum2 := sum1 + x
  let index1 := (s.index + 1) % s.window_size
  let count1 := if s.count < s.window_size then s.count + 1 else s.count
  (⟨s.window_size, buf1, index1, sum2, count1⟩, Int.tdiv sum2 (count1 : Int))

/-- One full iteration of the filter loop (lines 316-358): the reconfig
check followed by processing the sample received from the raw queue. -/
def filterIter (r : Nat) (s : FilterState) (x : Int) : FilterState × Int :=
  processSample (checkReconfig r s) x

/-- Run the filter loop over a list of iterations; each list element is the
pair (value of `filter_window_size` read at the top of the iteration,
raw sample received in that iteration). Returns the final state and the
list of values pushed to the filtered-data queue, in order. -/
def runFilter (s : FilterState) : List (Nat × Int) → FilterState × List Int
  | [] => (s, [])
  | (r, x) :: rest =>
      let p := filterIter r s x
      let q := runFilter p.1 rest
      (q.1, p.2 :: q.2)

/-- The list of filtered values emitted when the reconfiguration value
stays fixed at `W` for the whole run, starting from the reset state. -/
def filterOutputs (W : Nat) (xs : List Int) : List Int :=
  (runFilter (resetState W) (xs.map fun x => (W, x))).2

/-- The last `n` elements of a list (all of it if `n ≥ length`). -/
def lastN (n : Nat) (l : List Int) : List Int := l.drop (l.length - n)

example : filterOutputs 3 [20, 22, 24, 26, 28] = [20, 21, 22, 24, 26] := by decide

/-- The logical content of the circular buffer in eviction order: the
`min p.length W` retained samples, preceded by the zeros occupying the
not-yet-filled slots (`p` is the list of samples processed since the
last reset, `W` the active window size). -/
def padList (W : Nat) (p : List Int) : List Int :=
  List.replicate (W - min p.length W) 0 ++ lastN (min p.length W) p

/-- The filter-state invariant tying the state of `vLowPassFilterTask` to
the samples `p` processed since the most recent reset with window `W`:
the active window is `W`, the write index is `p.length % W`, the count is
`min p.length W`, the running sum is the sum of the logical window
content, and slot `(index + m) % W` holds the `m`-th element of the
logical window content in eviction order. -/
def Inv (W : Nat) (p : List Int) (s : FilterState) : Prop :=
  s.window_size = W ∧
  s.index = p.length % W ∧
  s.count = min p.length W ∧
  s.sum = (padList W p).sum ∧
  ∀ m, m < W → s.buffer ((s.index + m) % W) = (padList W p).getD m 0

theorem getD_replicate_zero (n m : Nat) : (List.replicate n (0 : Int)).getD m 0 = 0 := by
  induction n generalizing m with
  | zero => simp [List.getD]
  | succ k ih =>
    cases m with
    | zero => simp [List.replicate, List.getD]
    | succ m' => rw [List.replicate_succ, List.getD_cons_succ]; exact ih m'

theorem tail_getD (l : List Int) (m : Nat) : l.tail.getD m 0 = l.getD (m + 1) 0 := by
  cases l <;> simp [List.getD]

theorem lastN_length (n : Nat) (l : List Int) : (lastN n l).length = min n l.length := by
  unfold lastN
  rw [List.length_drop]
  omega

theorem lastN_of_length_le (n : Nat) (l : List Int) (h : l.length ≤ n) : lastN n l = l := by
  unfold lastN
  rw [Nat.sub_eq_zero_of_le h, List.drop_zero]

theorem padList_length (W : Nat) (p : List Int) : (padList W p).length = W := by
  unfold padList
  rw [List.length_append, List.length_replicate, lastN_length]
  omega

theorem padList_concat (W : Nat) (hW : 1 ≤ W) (p : List Int) (x : Int) :
    padList W (p ++ [x]) = (padList W p).tail ++ [x] := by
  rcases Nat.lt_or_ge p.length W with h | h
  · have h2 : min (p ++ [x]).length W = p.length + 1 := by
      rw [List.length_append, List.length_singleton]; omega
    have h3 : lastN (p.length + 1) (p ++ [x]) = p ++ [x] :=
      lastN_of_length_le _ _ (by rw [List.length_append, List.length_singleton])
    have h4 : lastN (min p.length W) p = p := by
      rw [Nat.min_eq_left (by omega)]; exact lastN_of_length_le _ _ le_rfl
    have h5 : W - min p.length W = (W - (p.length + 1)) + 1 := by omega
    unfold padList
    rw [h2, h3, h4, h5, List.replicate_succ, List.cons_append, List.tail_cons,
      List.append_assoc]
  · have h1 : min p.length W = W := by omega
    have h2 : min (p ++ [x]).length W = W := by
      rw [List.length_append, List.length_singleton]; omega
    unfold padList
    rw [h1, h2, Nat.sub_self, List.replicate_zero, List.nil_append,
      List.nil_append]
    unfold lastN
    rw [List.length_append, List.length_singleton]
    have h5 : p.length + 1 - W ≤ p.length := by omega
    rw [List.drop_append_of_le_length h5, List.tail_drop]
    have h6 : p.length - W + 1 = p.length + 1 - W := by omega
    rw [h6]

theorem padList_sum (W : Nat) (p : List Int) :
    (padList W p).sum = (lastN (min p.length W) p).sum := by
  simp [padList, List.sum_append, List.sum_replicate]

theorem Inv_reset (W : Nat) : Inv W [] (resetState W) := by
  refine ⟨rfl, by simp [resetState], by simp [resetState], ?_, ?_⟩
  · simp [resetState, padList, lastN, List.sum_replicate]
  · intro m _
    simp [resetState, padList, lastN, getD_replicate_zero]

theorem mod_ne_of_lt_of_pos (ix d W : Nat) (hix : ix < W) (hd0 : 0 < d) (hdW : d < W) :
    (ix + d) % W ≠ ix := by
  intro h
  have hmod : (ix + d) % W = ix % W := by rw [h, Nat.mod_eq_of_lt hix]
  have hdvd : W ∣ (ix + d) - ix := (Nat.modEq_iff_dvd' (Nat.le_add_right ix d)).mp hmod.symm
  rw [Nat.add_sub_cancel_left] at hdvd
  exact absurd (Nat.le_of_dvd hd0 hdvd) (by omega)

/-- One `processSample` step preserves the filter invariant, and the value
it emits is the truncating quotient of the new logical window sum by the
new count. -/
theorem processSample_inv (W : Nat) (hW : 1 ≤ W) (p : List Int) (x : Int)
    (s : FilterState) (h : Inv W p s) :
    Inv W (p ++ [x]) (processSample s x).1 ∧
      (processSample s x).2 =
        Int.tdiv (padList W (p ++ [x])).sum ((min (p.length + 1) W : Nat) : Int) := by
  obtain ⟨hw, hix, hc, hsum, hbuf⟩ := h
  have hixlt : s.index < W := by rw [hix]; exact Nat.mod_lt _ (by omega)
  have hpadlen : (padList W p).length = W := padList_length W p
  have hpad0 : s.buffer s.index = (padList W p).getD 0 0 := by
    have := hbuf 0 (by omega)
    rwa [Nat.add_zero, Nat.mod_eq_of_lt hixlt] at this
  have hpadcons : padList W p = (padList W p).getD 0 0 :: (padList W p).tail := by
    cases hp : padList W p with
    | nil => exfalso; have := padList_length W p; rw [hp] at this; simp at this; omega
    | cons a t => simp [List.getD]
  -- the new running sum is the sum of the new logical window content
  have hsum' : s.sum - s.buffer s.index + x = (padList W (p ++ [x])).sum := by
    rw [padList_concat W hW p x, List.sum_append, hpad0, hsum]
    conv_lhs => rw [hpadcons]
    rw [List.sum_cons, List.getD_cons_zero, List.sum_singleton]
    ring
  -- the new count is min (p.length + 1) W
  have hcount' : (if s.count < s.window_size then s.count + 1 else s.count) =
      min (p.length + 1) W := by
    rw [hw, hc]
    rcases Nat.lt_or_ge p.length W with hlt | hge
    · rw [if_pos (by omega)]; omega
    · rw [if_neg (by omega)]; omega
  have hixnew : (s.index + 1) % W = (p.length + 1) % W := by
    rw [hix, Nat.mod_add_mod]
  refine ⟨⟨?_, ?_, ?_, ?_, ?_⟩, ?_⟩
  · simpa [processSample] using hw
  · simpa [processSample, hw, List.length_append] using hixnew
  · simpa [processSample, List.length_append] using hcount'
  · simpa [processSample] using hsum'
  · -- buffer characterization after the write
    intro m hm
    simp only [processSample]
    rw [hw, hixnew]
    rw [padList_concat W hW p x]
    rcases Nat.lt_or_ge m (W - 1) with hmlt | hmge
    · -- untouched slot: still holds the old content, shifted by one
      have htail : (padList W p).tail.length = W - 1 := by
        rw [List.length_tail, hpadlen]
      have hne : ((p.length + 1) % W + m) % W ≠ s.index := by
        have e1 : ((p.length + 1) % W + m) % W = (s.index + (m + 1)) % W := by
          rw [← hixnew, Nat.mod_add_mod, Nat.add_assoc, Nat.add_comm 1 m]
        rw [e1]
        exact mod_ne_of_lt_of_pos s.index (m + 1) W hixlt (by omega) (by omega)
      rw [if_neg hne]
      have e1 : ((p.length + 1) % W + m) % W = (s.index + (m + 1)) % W := by
        rw [← hixnew, Nat.mod_add_mod, Nat.add_assoc, Nat.add_comm 1 m]
      rw [e1, hbuf (m + 1) (by omega)]
      rw [List.getD_append _ _ _ _ (by rw [htail]; omega), tail_getD]
    · -- the freshly written slot: holds x, at the end of the new content
      have hmeq : m = W - 1 := by omega
      have e1 : ((p.length + 1) % W + m) % W = s.index := by
        rw [Nat.mod_add_mod, hmeq, hix]
        have e2 : p.length + 1 + (W - 1) = p.length + W := by omega
        rw [e2, Nat.add_mod_right]
      rw [e1, if_pos rfl]
      have htail : (padList W p).tail.length = W - 1 := by
        rw [List.length_tail, hpadlen]
      rw [List.getD_append_right _ _ _ _ (by omega)]
      rw [htail, hmeq, Nat.sub_self]
      simp [List.getD]
  · -- the emitted value
    simp only [processSample]
    rw [hcount', hsum']

theorem runFilter_cons (s : FilterState) (r : Nat) (x : Int) (l : List (Nat × Int)) :
    runFilter s ((r, x) :: l) =
      ((runFilter (filterIter r s x).1 l).1,
        (filterIter r s x).2 :: (runFilter (filterIter r s x).1 l).2) := rfl

theorem runFilter_append (s : FilterState) (l1 l2 : List (Nat × Int)) :
    runFilter s (l1 ++ l2) =
      ((runFilter (runFilter s l1).1 l2).1,
        (runFilter s l1).2 ++ (runFilter (runFilter s l1).1 l2).2) := by
  induction l1 generalizing s with
  | nil => simp [runFilter]
  | cons a l ih =>
    obtain ⟨r, x⟩ := a
    rw [List.cons_append, runFilter_cons, runFilter_cons, ih]
    rfl

theorem runFilter_length (s : FilterState) (l : List (Nat × Int)) :
    (runFilter s l).2.length = l.length := by
  induction l generalizing s with
  | nil => rfl
  | cons a l ih =>
    obtain ⟨r, x⟩ := a
    rw [runFilter_cons]
    simp [ih]

theorem checkReconfig_eq_self (r : Nat) (s : FilterState) (h : s.window_size = r) :
    checkReconfig r s = s := by
  unfold checkReconfig
  rw [if_neg (by omega)]

/-- Running the filter over samples `xs` while the reconfiguration value
stays equal to the active window `W` preserves the invariant, extending
the processed-samples list. -/
theorem fixed_run_inv (W : Nat) (hW : 1 ≤ W) (xs : List Int) :
    ∀ (p : List Int) (s : FilterState), Inv W p s →
      Inv W (p ++ xs) (runFilter s (xs.map fun x => (W, x))).1 := by
  induction xs with
  | nil => intro p s h; simpa [runFilter] using h
  | cons x xs ih =>
    intro p s h
    rw [List.map_cons, runFilter_cons]
    have hcr : filterIter W s x = processSample s x := by
      unfold filterIter
      rw [checkReconfig_eq_self W s h.1]
    rw [hcr]
    have hstep := (processSample_inv W hW p x s h).1
    have := ih (p ++ [x]) (processSample s x).1 hstep
    rwa [List.append_cons]

/-- The "samples since the most recent reset" abstraction: folding the
iteration list, a changed reconfiguration value starts a fresh segment
(whose first sample is the one received in the same iteration), an
unchanged one extends the current segment. Returns the active window
size and the segment. -/
def sinceReset (w : Nat) (p : List Int) : List (Nat × Int) → Nat × List Int
  | [] => (w, p)
  | (r, x) :: rest =>
      if r ≠ w then sinceReset r [x] rest else sinceReset w (p ++ [x]) rest

theorem sinceReset_cons (w : Nat) (p : List Int) (r : Nat) (x : Int)
    (l : List (Nat × Int)) :
    sinceReset w p ((r, x) :: l) =
      if r ≠ w then sinceReset r [x] l else sinceReset w (p ++ [x]) l := rfl

/-- Main reachability lemma: however the reconfiguration value evolves
(all values positive and at most 100), the filter state after any run is
related by `Inv` to the active window size and the samples processed
since the most recent reset. -/
theorem runFilter_sinceReset (l : List (Nat × Int)) :
    ∀ (W : Nat) (p : List Int) (s : FilterState),
      1 ≤ W → W ≤ 100 → (∀ rx ∈ l, 1 ≤ rx.1 ∧ rx.1 ≤ 100) → Inv W p s →
      1 ≤ (sinceReset W p l).1 ∧ (sinceReset W p l).1 ≤ 100 ∧
        Inv (sinceReset W p l).1 (sinceReset W p l).2 (runFilter s l).1 := by
  induction l with
  | nil =>
    intro W p s hW h100 _ h
    exact ⟨hW, h100, by simpa [sinceReset, runFilter] using h⟩
  | cons a l ih =>
    intro W p s hW h100 hrange h
    obtain ⟨r, x⟩ := a
    have hr : 1 ≤ r ∧ r ≤ 100 := hrange (r, x) (List.mem_cons_self _ _)
    rw [runFilter_cons]
    by_cases hcase : r = W
    · have hcr : filterIter r s x = processSample s x := by
        unfold filterIter
        rw [checkReconfig_eq_self r s (by rw [h.1, hcase])]
      have hstep := (processSample_inv W hW p x s h).1
      have hsr : sinceReset W p ((r, x) :: l) = sinceReset W (p ++ [x]) l := by
        rw [sinceReset_cons, if_neg (by omega)]
      rw [hsr, hcr]
      subst hcase
      exact ih r (p ++ [x]) (processSample s x).1 hW h100
        (fun rx hm => hrange rx (List.mem_cons_of_mem _ hm)) hstep
    · have hcr : filterIter r s x = processSample (resetState r) x := by
        unfold filterIter checkReconfig
        rw [if_pos (by rw [h.1]; omega)]
      have hstep := (processSample_inv r hr.1 [] x (resetState r) (Inv_reset r)).1
      rw [List.nil_append] at hstep
      have hsr : sinceReset W p ((r, x) :: l) = sinceReset r [x] l := by
        rw [sinceReset_cons, if_pos (by omega)]
      rw [hsr, hcr]
      exact ih r [x] (processSample (resetState r) x).1 hr.1 hr.2
        (fun rx hm => hrange rx (List.mem_cons_of_mem _ hm)) hstep

/-! ### Claim theorems about the filter -/

/-- Claim C1: with the window size `W` held fixed since the most recent
reset (any positive `W` up to the buffer capacity 100, which covers the
accepted range `[10, 100]`), the `n`-th emitted value (0-indexed here,
so `n + 1` samples have been received) is the floor quotient of the sum
of the last `min (n+1) W` received samples by `min (n+1) W`; and in
particular window size 3 on inputs `[20, 22, 24, 26, 28]` emits
`[20, 21, 22, 24, 26]`. The samples are required non-negative, as every
sample the source task can produce is (cf. `sample`); for them the C
truncating division coincides with the floor division the claim names. -/
theorem claim_C1 :
    (∀ (W : Nat) (ss : List Int) (n : Nat), 1 ≤ W → W ≤ 100 →
      (∀ x ∈ ss, 0 ≤ x) → n < ss.length →
      (filterOutputs W ss)[n]? =
        some (Int.fdiv (lastN (min (n + 1) W) (ss.take (n + 1))).sum
          ((min (n + 1) W : Nat) : Int))) ∧
    filterOutputs 3 [20, 22, 24, 26, 28] = [20, 21, 22, 24, 26] := by
  constructor
  · intro W ss n hW h100 hnn hn
    have hsplit : ss.map (fun x => (W, x)) =
        (ss.take n).map (fun x => (W, x)) ++ (ss.drop n).map (fun x => (W, x)) := by
      rw [← List.map_append, List.take_append_drop]
    rw [filterOutputs, hsplit, runFilter_append]
    have hlen1 : (runFilter (resetState W) ((ss.take n).map fun x => (W, x))).2.length = n := by
      rw [runFilter_length, List.length_map, List.length_take]
      omega
    rw [List.getElem?_append_right (by omega), hlen1, Nat.sub_self]
    have hdrop : ss.drop n = ss[n] :: ss.drop (n + 1) := List.drop_eq_getElem_cons hn
    rw [hdrop, List.map_cons, runFilter_cons]
    have hinv : Inv W (ss.take n)
        (runFilter (resetState W) ((ss.take n).map fun x => (W, x))).1 := by
      have := fixed_run_inv W hW (ss.take n) [] (resetState W) (Inv_reset W)
      rwa [List.nil_append] at this
    have hiter : filterIter W
        (runFilter (resetState W) ((ss.take n).map fun x => (W, x))).1 ss[n] =
        processSample (runFilter (resetState W) ((ss.take n).map fun x => (W, x))).1 ss[n] := by
      unfold filterIter
      rw [checkReconfig_eq_self W _ hinv.1]
    rw [hiter]
    have hemit := (processSample_inv W hW (ss.take n) ss[n] _ hinv).2
    have hlen2 : (ss.take n).length = n := by rw [List.length_take]; omega
    have htake : ss.take n ++ [ss[n]] = ss.take (n + 1) := by
      rw [← List.concat_eq_append, List.take_concat_get]
    rw [hlen2] at hemit
    rw [htake] at hemit
    have hsumnn : 0 ≤ (padList W (ss.take (n + 1))).sum := by
      apply List.sum_nonneg
      intro y hy
      rcases List.mem_append.mp hy with hy | hy
      · rw [List.eq_of_mem_replicate hy]
      · exact hnn y (List.mem_of_mem_take (List.mem_of_mem_drop hy))
    simp only [List.getElem?_cons_zero, hemit]
    have hlen3 : (List.take (n + 1) ss).length = n + 1 := by
      rw [List.length_take]; omega
    have hps : (padList W (List.take (n + 1) ss)).sum =
        (lastN (min (n + 1) W) (List.take (n + 1) ss)).sum := by
      rw [padList_sum, hlen3]
    rw [hps, Int.fdiv_eq_tdiv (hps ▸ hsumnn) (Int.natCast_nonneg _)]
  · decide

/-- Witness for `claim_C1` at `W = 10`, `ss = [20, 22]`, `n = 1`. -/
theorem claim_C1_witness :
    (filterOutputs 10 [20, 22])[1]? =
      some (Int.fdiv (lastN (min 2 10) (([20, 22] : List Int).take 2)).sum
        ((min 2 10 : Nat) : Int)) :=
  claim_C1.1 10 [20, 22] 1 (by decide) (by decide) (by decide) (by decide)

/-- Claim C2: when the reconfiguration value `r` read at the top of a filter
iteration differs from the active window size, the filter resets all its
state (buffer zeroed, sum 0, count 0, index 0) before receiving the next
sample, the value emitted in that iteration is exactly that sample, and
the whole iteration result is independent of the state (hence of every
sample received) before the reset. -/
theorem claim_C2 (s : FilterState) (r : Nat) (x : Int)
    (hne : r ≠ s.window_size) (hr : 1 ≤ r) :
    checkReconfig r s = resetState r ∧
    (∀ j, (resetState r).buffer j = 0) ∧ (resetState r).sum = 0 ∧
    (resetState r).count = 0 ∧ (resetState r).index = 0 ∧
    (filterIter r s x).2 = x ∧
    (∀ s' : FilterState, r ≠ s'.window_size → filterIter r s x = filterIter r s' x) := by
  have hcr : checkReconfig r s = resetState r := by
    unfold checkReconfig
    rw [if_pos hne]
  refine ⟨hcr, fun j => rfl, rfl, rfl, rfl, ?_, ?_⟩
  · show (processSample (checkReconfig r s) x).2 = x
    rw [hcr]
    show Int.tdiv (0 - 0 + x) ((if 0 < r then 0 + 1 else 0 : Nat) : Int) = x
    rw [if_pos (by omega)]
    norm_num
  · intro s' hne'
    unfold filterIter
    rw [hcr]
    unfold checkReconfig
    rw [if_pos hne']

/-- Witness for `claim_C2` at a state with active window 5, `r = 10`,
`x = 42`. -/
theorem claim_C2_witness :
    (filterIter 10 (resetState 5) 42).2 = 42 :=
  (claim_C2 (resetState 5) 10 42 (by decide) (by decide)).2.2.2.2.2.1

/-- Claim C3: the filter-state invariant holds after every iteration: for
any run of the filter loop from the reset state (the state in which the
task also starts), with every reconfiguration value read during the run
positive and at most `MAX_WINDOW_SIZE = 100`, the final state satisfies
`count ≤ W ≤ 100`, `index < W` (so `index ∈ [0, W)`), and the running
sum is the sum of the `count` most recently retained samples, where `W`
is the active window size and the retained samples are those processed
since the most recent reset. (`0 ≤ count` holds by the `Nat` typing.) -/
theorem claim_C3 (W₀ : Nat) (l : List (Nat × Int))
    (hW : 1 ≤ W₀) (h100 : W₀ ≤ 100)
    (hrange : ∀ rx ∈ l, 1 ≤ rx.1 ∧ rx.1 ≤ 100) :
    (runFilter (resetState W₀) l).1.window_size = (sinceReset W₀ [] l).1 ∧
    (runFilter (resetState W₀) l).1.count ≤ (sinceReset W₀ [] l).1 ∧
    (sinceReset W₀ [] l).1 ≤ 100 ∧
    (runFilter (resetState W₀) l).1.index < (sinceReset W₀ [] l).1 ∧
    (runFilter (resetState W₀) l).1.sum =
      (lastN (runFilter (resetState W₀) l).1.count (sinceReset W₀ [] l).2).sum := by
  obtain ⟨h1, h2, hinv⟩ :=
    runFilter_sinceReset l W₀ [] (resetState W₀) hW h100 hrange (Inv_reset W₀)
  obtain ⟨hw, hix, hc, hsum, _⟩ := hinv
  refine ⟨hw, ?_, h2, ?_, ?_⟩
  · rw [hc]; omega
  · rw [hix]; exact Nat.mod_lt _ (by omega)
  · rw [hsum, hc, padList_sum]

/-- Witness for `claim_C3`: a run that starts with window 10, processes two
samples, is reconfigured to 12 and processes two more. -/
theorem claim_C3_witness :
    (runFilter (resetState 10) [(10, 20), (10, 30), (12, 7), (12, 9)]).1.sum =
      (lastN (runFilter (resetState 10) [(10, 20), (10, 30), (12, 7), (12, 9)]).1.count
        (sinceReset 10 [] [(10, 20), (10, 30), (12, 7), (12, 9)]).2).sum :=
  (claim_C3 10 [(10, 20), (10, 30), (12, 7), (12, 9)] (by decide) (by decide)
    (by decide)).2.2.2.2

/-- Claim C7: at the emit step the divisor `count` is at least 1 whenever
the active window size is at least 1: the count after the update in
lines 346-348 is positive, and the emitted value is `sum / count` with
that positive count, so the division is well-defined (the
division-by-zero case is unreachable). -/
theorem claim_C7 (s : FilterState) (x : Int) (hW : 1 ≤ s.window_size) :
    1 ≤ (processSample s x).1.count ∧
    (processSample s x).2 =
      Int.tdiv (processSample s x).1.sum ((processSample s x).1.count : Int) := by
  constructor
  · show 1 ≤ if s.count < s.window_size then s.count + 1 else s.count
    rcases Nat.lt_or_ge s.count s.window_size with h | h
    · rw [if_pos h]; omega
    · rw [if_neg (by omega)]; omega
  · rfl

/-- Witness for `claim_C7` at the freshly reset state with window 5. -/
theorem claim_C7_witness : 1 ≤ (processSample (resetState 5) 20).1.count :=
  (claim_C7 (resetState 5) 20 (by decide)).1

/-! ### The UART command parser (main.c lines 427-472 `vUARTReaderTask`)
and `stringToInt` (lines 711-721) -/

/-- `stringToInt` (lines 711-721): parse a digit string left to right,
returning `-1` on the first non-digit character. With at most 9 digits
(all the parser ever passes, given the buffer capacity) the C `int`
arithmetic cannot overflow, so plain `Int` arithmetic is faithful. -/
def stringToIntAux (value : Int) : List Char → Int
  | [] => value
  | c :: rest =>
      if c < '0' ∨ '9' < c then -1
      else stringToIntAux (value * 10 + ((c.toNat : Int) - 48)) rest

def stringToInt (s : List Char) : Int := stringToIntAux 0 s

/-- State of `vUARTReaderTask` together with the shared global it writes:
the logical content of `inputBuffer` (its first `inputIndex` characters,
lines 431-432) and `filter_window_size` (line 75, a C `int`). -/
structure UartState where
  inputBuffer : List Char
  window : Int

/-- The state when the task starts: empty logical buffer (line 432) and
the initializer of `filter_window_size` (line 75). -/
def initUart : UartState := ⟨[], 5⟩

/-- One iteration of the `vUARTReaderTask` loop body for a received
character `c` (lines 436-467), returning the new state and the
concatenation of the strings passed to `vUARTSend` in that iteration
(the one-character `UARTCharPut` echo of line 437 is not part of it). -/
def uartStep (s : UartState) (c : Char) : UartState × String :=
  if '0' ≤ c ∧ c ≤ '9' then
    if s.inputBuffer.length < INPUT_BUFFER_SIZE - 1 then
      ({ s with inputBuffer := s.inputBuffer ++ [c] }, "")
    else
      ({ s with inputBuffer := [] }, "\nVery long entry. Try again.\r\n")
  else if c = '\r' ∨ c = '\n' then
    if 0 < s.inputBuffer.length then
      if 10 ≤ stringToInt s.inputBuffer ∧ stringToInt s.inputBuffer ≤ 100 then
        ({ inputBuffer := [], window := stringToInt s.inputBuffer },
          "\r\n" ++ "\n Filter now N = " ++ s.inputBuffer.asString ++ "\r\n")
      else
        ({ s with inputBuffer := [] }, "\r\n" ++ "\n Invalid N (10-100).\r\n")
    else
      ({ s with inputBuffer := [] }, "\r\n" ++ "\n Empty buffer.\r\n")
  else
    ({ s with inputBuffer := [] }, "\n Non numeric character.\r\n")

/-- Run the parser over a character sequence, collecting all output. -/
def runUart (s : UartState) : List Char → UartState × String
  | [] => (s, "")
  | c :: cs =>
      let p := uartStep s c
      let q := runUart p.1 cs
      (q.1, p.2 ++ q.2)

example : (runUart initUart "55\r".toList).1.window = 55 := by decide

example : (runUart initUart "5\r".toList).1.window = 5 := by decide

theorem runUart_cons (s : UartState) (c : Char) (cs : List Char) :
    runUart s (c :: cs) =
      ((runUart (uartStep s c).1 cs).1,
        (uartStep s c).2 ++ (runUart (uartStep s c).1 cs).2) := rfl

/-- Every branch of one parser iteration leaves the buffer with at most 9
characters, all digits, if it was so before. -/
theorem uartStep_buffer_inv (s : UartState) (c : Char)
    (h9 : s.inputBuffer.length ≤ 9)
    (hdig : ∀ ch ∈ s.inputBuffer, '0' ≤ ch ∧ ch ≤ '9') :
    (uartStep s c).1.inputBuffer.length ≤ 9 ∧
      ∀ ch ∈ (uartStep s c).1.inputBuffer, '0' ≤ ch ∧ ch ≤ '9' := by
  unfold uartStep
  split_ifs with h1 h2 h3 h4 h5
  · refine ⟨?_, ?_⟩
    · simp only [List.length_append, List.length_singleton]
      simp only [INPUT_BUFFER_SIZE] at h2
      omega
    · intro ch hch
      rcases List.mem_append.mp hch with hch | hch
      · exact hdig ch hch
      · rw [List.mem_singleton.mp hch]
        exact h1
  · exact ⟨by simp, by simp⟩
  · exact ⟨by simp, by simp⟩
  · exact ⟨by simp, by simp⟩
  · exact ⟨by simp, by simp⟩
  · exact ⟨by simp, by simp⟩

theorem runUart_buffer_inv (cs : List Char) :
    ∀ s : UartState, s.inputBuffer.length ≤ 9 →
      (∀ ch ∈ s.inputBuffer, '0' ≤ ch ∧ ch ≤ '9') →
      (runUart s cs).1.inputBuffer.length ≤ 9 ∧
        ∀ ch ∈ (runUart s cs).1.inputBuffer, '0' ≤ ch ∧ ch ≤ '9' := by
  induction cs with
  | nil => intro s h9 hdig; exact ⟨h9, hdig⟩
  | cons c cs ih =>
    intro s h9 hdig
    rw [runUart_cons]
    obtain ⟨h9', hdig'⟩ := uartStep_buffer_inv s c h9 hdig
    exact ih _ h9' hdig'

/-- A window-size value is either the startup value 5 or an accepted
operator value in `[10, 100]`. -/
def WindowOk (w : Int) : Prop := w = 5 ∨ (10 ≤ w ∧ w ≤ 100)

theorem uartStep_window_inv (s : UartState) (c : Char) (h : WindowOk s.window) :
    WindowOk (uartStep s c).1.window := by
  unfold uartStep
  split_ifs with h1 h2 h3 h4 h5
  · exact h
  · exact h
  · exact Or.inr h5
  · exact h
  · exact h
  · exact h

theorem runUart_window_inv (cs : List Char) :
    ∀ s : UartState, WindowOk s.window → WindowOk (runUart s cs).1.window := by
  induction cs with
  | nil => intro s h; exact h
  | cons c cs ih =>
    intro s h
    rw [runUart_cons]
    exact ih _ (uartStep_window_inv s c h)

/-- Claim C4: on a line terminator (`'\r'` or `'\n'`) with a non-empty
all-digit buffer of at most the 9-character capacity: if the parsed
value `N` is in `[10, 100]` the shared window size becomes `N` and the
iteration's output is the success message `"\n Filter now N = {digits}\r\n"`
(preceded by the `"\r\n"` sent on line 447); otherwise the output ends
with the range-error message and the window size is unchanged; in both
cases the buffer is cleared. -/
theorem claim_C4 (s : UartState) (c : Char)
    (hc : c = '\r' ∨ c = '\n')
    (hne : s.inputBuffer ≠ [])
    (hdig : ∀ ch ∈ s.inputBuffer, '0' ≤ ch ∧ ch ≤ '9')
    (hlen : s.inputBuffer.length ≤ 9) :
    (uartStep s c).1.inputBuffer = [] ∧
    (10 ≤ stringToInt s.inputBuffer ∧ stringToInt s.inputBuffer ≤ 100 →
      (uartStep s c).1.window = stringToInt s.inputBuffer ∧
      (uartStep s c).2 =
        "\r\n" ++ "\n Filter now N = " ++ s.inputBuffer.asString ++ "\r\n") ∧
    (¬(10 ≤ stringToInt s.inputBuffer ∧ stringToInt s.inputBuffer ≤ 100) →
      (uartStep s c).1.window = s.window ∧
      (uartStep s c).2 = "\r\n" ++ "\n Invalid N (10-100).\r\n") := by
  have hnotdig : ¬('0' ≤ c ∧ c ≤ '9') := by
    rcases hc with h | h <;> subst h <;> decide
  have hterm : c = '\r' ∨ c = '\n' := hc
  have hpos : 0 < s.inputBuffer.length := List.length_pos.mpr hne
  by_cases hr : 10 ≤ stringToInt s.inputBuffer ∧ stringToInt s.inputBuffer ≤ 100
  · refine ⟨?_, fun _ => ⟨?_, ?_⟩, fun habs => absurd hr habs⟩ <;>
      simp only [uartStep, if_neg hnotdig, if_pos hterm, if_pos hpos, if_pos hr]
  · refine ⟨?_, fun habs => absurd habs hr, fun _ => ⟨?_, ?_⟩⟩ <;>
      simp only [uartStep, if_neg hnotdig, if_pos hterm, if_pos hpos, if_neg hr]

/-- Witness for `claim_C4` on the buffer `"55"` terminated by `'\r'`. -/
theorem claim_C4_witness :
    (uartStep ⟨['5', '5'], 5⟩ '\r').1.window = stringToInt ['5', '5'] :=
  ((claim_C4 ⟨['5', '5'], 5⟩ '\r' (Or.inl rfl) (by decide) (by decide)
    (by decide)).2.1 (by decide)).1

/-- Claim C8: (1) from startup, after any received character sequence the
command buffer holds at most its 9-character capacity of digits;
(2) a digit arriving with the capacity exhausted resets the buffer and
emits the "Very long entry" notice; (3) a character that is neither a
digit nor CR/LF resets the buffer and emits the "Non numeric character"
notice; (4) processing a line terminator always leaves the buffer
empty. -/
theorem claim_C8 :
    (∀ cs : List Char,
      (runUart initUart cs).1.inputBuffer.length ≤ 9 ∧
        ∀ ch ∈ (runUart initUart cs).1.inputBuffer, '0' ≤ ch ∧ ch ≤ '9') ∧
    (∀ (s : UartState) (c : Char), '0' ≤ c ∧ c ≤ '9' →
      ¬s.inputBuffer.length < 9 →
      (uartStep s c).1.inputBuffer = [] ∧
        (uartStep s c).2 = "\nVery long entry. Try again.\r\n") ∧
    (∀ (s : UartState) (c : Char), ¬('0' ≤ c ∧ c ≤ '9') →
      ¬(c = '\r' ∨ c = '\n') →
      (uartStep s c).1.inputBuffer = [] ∧
        (uartStep s c).2 = "\n Non numeric character.\r\n") ∧
    (∀ (s : UartState) (c : Char), c = '\r' ∨ c = '\n' →
      (uartStep s c).1.inputBuffer = []) := by
  refine ⟨?_, ?_, ?_, ?_⟩
  · intro cs
    exact runUart_buffer_inv cs initUart (by decide) (by decide)
  · intro s c hdig hfull
    have hfull' : ¬s.inputBuffer.length < INPUT_BUFFER_SIZE - 1 := by
      simp only [INPUT_BUFFER_SIZE]
      omega
    constructor <;> simp only [uartStep, if_pos hdig, if_neg hfull']
  · intro s c hdig hterm
    constructor <;> simp only [uartStep, if_neg hdig, if_neg hterm]
  · intro s c hterm
    have hnotdig : ¬('0' ≤ c ∧ c ≤ '9') := by
      rcases hterm with h | h <;> subst h <;> decide
    simp only [uartStep, if_neg hnotdig, if_pos hterm]
    split_ifs <;> rfl

/-- Witness for `claim_C8`: its hypothesis-bearing parts applied at a full
9-digit buffer receiving `'0'`, at the letter `'a'`, and at `'\n'`. -/
theorem claim_C8_witness :
    (uartStep ⟨['1', '2', '3', '4', '5', '6', '7', '8', '9'], 5⟩ '0').1.inputBuffer = [] ∧
    (uartStep ⟨['1', '2'], 5⟩ 'a').2 = "\n Non numeric character.\r\n" ∧
    (uartStep ⟨['1', '2'], 5⟩ '\n').1.inputBuffer = [] :=
  ⟨(claim_C8.2.1 ⟨['1', '2', '3', '4', '5', '6', '7', '8', '9'], 5⟩ '0'
      (by decide) (by decide)).1,
    (claim_C8.2.2.1 ⟨['1', '2'], 5⟩ 'a' (by decide) (by decide)).2,
    claim_C8.2.2.2 ⟨['1', '2'], 5⟩ '\n' (Or.inr rfl)⟩

/-- Claim C10: at startup the shared window size is 5 (below the accepted
minimum 10), and after any received character sequence it is either
still 5 or a value in `[10, 100]`; in particular it is always at least
1, so the filter's modulo step and count bound stay well-defined. -/
theorem claim_C10 :
    initUart.window = 5 ∧
    ∀ cs : List Char,
      ((runUart initUart cs).1.window = 5 ∨
        (10 ≤ (runUart initUart cs).1.window ∧
          (runUart initUart cs).1.window ≤ 100)) ∧
      1 ≤ (runUart initUart cs).1.window := by
  refine ⟨rfl, fun cs => ?_⟩
  have h := runUart_window_inv cs initUart (Or.inl rfl)
  refine ⟨h, ?_⟩
  rcases h with h | h <;> omega

/-! ### Claims about the sample source and the statistics formatter -/

/-- Claim C6: every produced sample equals `15 + (prng() mod 21)` and lies
in `[15, 35]`; the generator updates `seed' = seed * 1103515245 + 12345`
modulo `2 ^ 32` from the fixed initial seed 6789 and outputs
`(seed' >> 16) & 0x7FFF`; the whole sequence is a function of the seed,
and its first three outputs are the concrete values 20478, 30212, 11649
(giving the first three samples 18, 29, 30). -/
theorem claim_C6 :
    (∀ n : Nat, sample n = 15 + prngOutput n % 21 ∧
      15 ≤ sample n ∧ sample n ≤ 35) ∧
    seedSeq 0 = 6789 ∧
    (∀ n : Nat, seedSeq (n + 1) = (seedSeq n * 1103515245 + 12345) % 2 ^ 32) ∧
    (∀ n : Nat, prngOutput n = (seedSeq (n + 1) >>> 16) &&& 0x7FFF) ∧
    prngOutput 0 = 20478 ∧ prngOutput 1 = 30212 ∧ prngOutput 2 = 11649 ∧
    sample 0 = 18 ∧ sample 1 = 29 ∧ sample 2 = 30 := by
  refine ⟨?_, rfl, fun n => rfl, fun n => rfl, ?_, ?_, ?_, ?_, ?_, ?_⟩
  · intro n
    refine ⟨rfl, ?_, ?_⟩
    · exact Nat.le_add_right 15 _
    · have h : prngOutput n % 21 < 21 := Nat.mod_lt _ (by norm_num)
      unfold sample
      omega
  all_goals decide

/-- The `cpu` computation of `formatTaskStats` (lines 736-742): percentage
of total runtime, `(task->ulRunTimeCounter * 100UL) / totalRunTime` in
32-bit unsigned arithmetic when `totalRunTime > 0`, else 0. The product
wraps modulo `2 ^ 32` (both operands are 32-bit unsigned on this
platform), made explicit here. -/
def formatTaskStatsCpu (ulRunTimeCounter totalRunTime : Nat) : Nat :=
  if 0 < totalRunTime then ulRunTimeCounter * 100 % 2 ^ 32 / totalRunTime else 0

/-- Counterexample to claim C9 as stated: with a task runtime of `2 ^ 26`
ticks out of a total of `2 ^ 26` (100 percent of the runtime), the code
reports 36 percent, not the exact `task_runtime * 100 / total_runtime =
100`, because `2 ^ 26 * 100` wraps modulo `2 ^ 32`. -/
theorem claim_C9_counterexample :
    formatTaskStatsCpu 67108864 67108864 = 36 ∧
      67108864 * 100 / 67108864 = 100 ∧
      formatTaskStatsCpu 67108864 67108864 ≠ 67108864 * 100 / 67108864 := by
  refine ⟨by decide, by decide, by decide⟩

/-- Claim C9 as amended: for 32-bit runtime counters, the reported CPU
percentage equals `(task_runtime * 100 mod 2 ^ 32) / total_runtime` when
`total_runtime > 0` — which agrees with the exact
`task_runtime * 100 / total_runtime` whenever the product does not wrap,
i.e. whenever `task_runtime * 100 < 2 ^ 32` — and equals 0 when
`total_runtime` is 0. -/
theorem claim_C9 (r t : Nat) (hr : r < 2 ^ 32) (ht : t < 2 ^ 32) :
    (0 < t → formatTaskStatsCpu r t = r * 100 % 2 ^ 32 / t ∧
      (r * 100 < 2 ^ 32 → formatTaskStatsCpu r t = r * 100 / t)) ∧
    (t = 0 → formatTaskStatsCpu r t = 0) := by
  constructor
  · intro htpos
    constructor
    · unfold formatTaskStatsCpu
      rw [if_pos htpos]
    · intro hsmall
      unfold formatTaskStatsCpu
      rw [if_pos htpos, Nat.mod_eq_of_lt hsmall]
  · intro ht0
    unfold formatTaskStatsCpu
    rw [ht0]
    rfl

/-- Witness for `claim_C9` at runtime 50 of total 200 (25 percent). -/
theorem claim_C9_witness :
    formatTaskStatsCpu 50 200 = 50 * 100 % 2 ^ 32 / 200 :=
  ((claim_C9 50 200 (by norm_num) (by norm_num)).1 (by norm_num)).1

/-! ### The display renderer (main.c lines 369-417 `vDisplayGraphTask`,
lines 673-681 `setPixel`) -/

/-- `ucDisplayBuffer` (line 74): 96 columns in two 8-pixel pages; byte
`x + page * 96` is embedded as `page0 x` / `page1 x` (column values at
`x ≥ 96` do not exist in the C array and are never read or written by
the embedded operations below). -/
structure DisplayBuf where
  page0 : Nat → Nat
  page1 : Nat → Nat

/-- The global `ucDisplayBuffer = {0}` initializer (line 74). -/
def initDisplay : DisplayBuf := ⟨fun _ => 0, fun _ => 0⟩

/-- `setPixel` (lines 673-681): bound-guarded; `page = y / 8`,
`bit = y % 8`; sets (`|=`) or clears (`&= ~`, truncated to the 8-bit
store) the bit. Coordinates are `Nat` here: every call site passes
non-negative coordinates, so the `x < 0` / `y < 0` guards are vacuous.
`isOn` is the C truth value of the `on` argument (call sites pass
`PIXEL_ON = 1`). -/
def setPixel (x y : Nat) (isOn : Bool) (b : DisplayBuf) : DisplayBuf :=
  if x < 96 ∧ y < 16 then
    let bit := y % 8
    if y / 8 = 0 then
      { b with page0 := fun j => if j = x then
          (if isOn then b.page0 x ||| (1 <<< bit)
            else b.page0 x &&& (255 ^^^ (1 <<< bit)))
          else b.page0 j }
    else
      { b with page1 := fun j => if j = x then
          (if isOn then b.page1 x ||| (1 <<< bit)
            else b.page1 x &&& (255 ^^^ (1 <<< bit)))
          else b.page1 j }
  else b

/-- Whether the bit for row `y` of column `x` is set (the invariant reading
convention of the display buffer: row `y < 8` is bit `y` of page 0, row
`8 ≤ y < 16` is bit `y - 8` of page 1). -/
def getPixel (b : DisplayBuf) (x y : Nat) : Bool :=
  if y < 8 then (b.page0 x).testBit y else (b.page1 x).testBit (y - 8)

/-- Lines 386-393: shift both pages one column to the left (column `i`
takes the old column `i + 1` for `i < 95`) and clear the last column. -/
def shiftClear (b : DisplayBuf) : DisplayBuf where
  page0 := fun j => if j < 95 then b.page0 (j + 1) else if j = 95 then 0 else b.page0 j
  page1 := fun j => if j < 95 then b.page1 (j + 1) else if j = 95 then 0 else b.page1 j

/-- Lines 399-401: draw the Y axis in column 0. -/
def drawYAxis (b : DisplayBuf) : DisplayBuf :=
  (List.range 16).foldl (fun b i => setPixel 0 i true b) b

/-- Lines 404-406: draw the X axis along the bottom row. -/
def drawXAxis (b : DisplayBuf) : DisplayBuf :=
  (List.range 96).foldl (fun b i => setPixel i 15 true b) b

/-- Lines 381-383: map the filtered value to a clamped column height
`y = clamp((value - 15) * 15 / 20, 0, 15)` (C truncating division; the
two clamping `if`s of the source, the first applying before the
second). -/
def yOf (value : Int) : Int :=
  if ((value - 15) * 15).tdiv 20 < 0 then 0
  else if ((value - 15) * 15).tdiv 20 > 15 then 15
  else ((value - 15) * 15).tdiv 20

/-- One iteration of `vDisplayGraphTask` on a received filtered value
(lines 378-409): compute the clamped height, scroll, clear the last
column, set the new pixel at inverted row `15 - y`, redraw both axes.
(The subsequent `OSRAMClear`/`OSRAMImageDraw`/`OSRAMStringDraw` calls
submit the buffer to the external display and do not modify it.) -/
def renderStep (b : DisplayBuf) (value : Int) : DisplayBuf :=
  drawXAxis (drawYAxis (setPixel 95 (15 - (yOf value).toNat) true (shiftClear b)))

/-- Consecutive renders of a list of filtered values. -/
def renderRun (b : DisplayBuf) (vs : List Int) : DisplayBuf :=
  vs.foldl renderStep b

theorem setPixel_true_page0 (b : DisplayBuf) (x y j : Nat) :
    (setPixel x y true b).page0 j =
      if j = x ∧ x < 96 ∧ y < 8 then b.page0 j ||| 2 ^ y else b.page0 j := by
  unfold setPixel
  by_cases hg : x < 96 ∧ y < 16
  · rw [if_pos hg]
    by_cases h8 : y < 8
    · rw [if_pos (Nat.div_eq_of_lt h8)]
      simp only []
      by_cases hj : j = x
      · subst hj
        rw [if_pos rfl,
          if_pos (show j = j ∧ j < 96 ∧ y < 8 from ⟨rfl, hg.1, h8⟩),
          Nat.mod_eq_of_lt h8, Nat.one_shiftLeft, if_pos trivial]
      · rw [if_neg hj, if_neg (by omega)]
    · have hdiv : y / 8 ≠ 0 := by omega
      rw [if_neg hdiv]
      simp only []
      rw [if_neg (by omega)]
  · rw [if_neg hg, if_neg (by omega)]

theorem setPixel_true_page1 (b : DisplayBuf) (x y j : Nat) :
    (setPixel x y true b).page1 j =
      if j = x ∧ x < 96 ∧ 8 ≤ y ∧ y < 16 then b.page1 j ||| 2 ^ (y - 8)
      else b.page1 j := by
  unfold setPixel
  by_cases hg : x < 96 ∧ y < 16
  · rw [if_pos hg]
    by_cases h8 : y < 8
    · rw [if_pos (Nat.div_eq_of_lt h8)]
      simp only []
      rw [if_neg (by omega)]
    · have hdiv : y / 8 ≠ 0 := by omega
      rw [if_neg hdiv]
      simp only []
      by_cases hj : j = x
      · subst hj
        rw [if_pos rfl,
          if_pos (show j = j ∧ j < 96 ∧ 8 ≤ y ∧ y < 16 from
            ⟨rfl, hg.1, by omega, hg.2⟩),
          Nat.one_shiftLeft, if_pos trivial]
        have hm : y % 8 = y - 8 := by omega
        rw [hm]
      · rw [if_neg hj, if_neg (by omega)]
  · rw [if_neg hg, if_neg (by omega)]

theorem getPixel_eq (b : DisplayBuf) (x y : Nat) :
    getPixel b x y =
      if y < 8 then (b.page0 x).testBit y else (b.page1 x).testBit (y - 8) := rfl

theorem getPixel_setPixel_self (b : DisplayBuf) (x y : Nat)
    (hx : x < 96) (hy : y < 16) :
    getPixel (setPixel x y true b) x y = true := by
  rw [getPixel_eq]
  by_cases h8 : y < 8
  · rw [if_pos h8, setPixel_true_page0,
      if_pos (show x = x ∧ x < 96 ∧ y < 8 from ⟨rfl, hx, h8⟩),
      Nat.testBit_lor, Nat.testBit_two_pow]
    simp
  · rw [if_neg h8, setPixel_true_page1,
      if_pos (show x = x ∧ x < 96 ∧ 8 ≤ y ∧ y < 16 from ⟨rfl, hx, by omega, hy⟩),
      Nat.testBit_lor, Nat.testBit_two_pow]
    simp

theorem getPixel_setPixel_other (b : DisplayBuf) (x y x' y' : Nat)
    (h : x' ≠ x ∨ y' ≠ y) :
    getPixel (setPixel x y true b) x' y' = getPixel b x' y' := by
  rw [getPixel_eq, getPixel_eq b]
  by_cases h8 : y' < 8
  · rw [if_pos h8, if_pos h8, setPixel_true_page0]
    by_cases hc : x' = x ∧ x < 96 ∧ y < 8
    · have hyy : y' ≠ y := by tauto
      rw [if_pos hc, Nat.testBit_lor, Nat.testBit_two_pow]
      simp [Ne.symm hyy]
    · rw [if_neg hc]
  · rw [if_neg h8, if_neg h8, setPixel_true_page1]
    by_cases hc : x' = x ∧ x < 96 ∧ 8 ≤ y ∧ y < 16
    · have hyy : y' ≠ y := by tauto
      have hne : y - 8 ≠ y' - 8 := by omega
      rw [if_pos hc, Nat.testBit_lor, Nat.testBit_two_pow]
      simp [hne]
    · rw [if_neg hc]

theorem getPixel_setPixel_mono (b : DisplayBuf) (x y x' y' : Nat)
    (h : getPixel b x' y' = true) :
    getPixel (setPixel x y true b) x' y' = true := by
  by_cases hxy : x' = x ∧ y' = y
  · obtain ⟨rfl, rfl⟩ := hxy
    by_cases hg : x' < 96 ∧ y' < 16
    · exact getPixel_setPixel_self b x' y' hg.1 hg.2
    · unfold setPixel
      rw [if_neg hg]
      exact h
  · rw [getPixel_setPixel_other b x y x' y' (by tauto)]
    exact h

theorem xAxisFold_getPixel_ne (l : List Nat) (x y : Nat) (hy : y ≠ 15) :
    ∀ b : DisplayBuf,
      getPixel (l.foldl (fun b i => setPixel i 15 true b) b) x y =
        getPixel b x y := by
  induction l with
  | nil => intro b; rfl
  | cons a l ih =>
    intro b
    rw [List.foldl_cons, ih, getPixel_setPixel_other b a 15 x y (Or.inr hy)]

theorem xAxisFold_getPixel_mono (l : List Nat) (x y : Nat) :
    ∀ b : DisplayBuf, getPixel b x y = true →
      getPixel (l.foldl (fun b i => setPixel i 15 true b) b) x y = true := by
  induction l with
  | nil => intro b h; exact h
  | cons a l ih =>
    intro b h
    rw [List.foldl_cons]
    exact ih _ (getPixel_setPixel_mono b a 15 x y h)

theorem xAxisFold_getPixel_mem (l : List Nat) (x : Nat) (hx96 : x < 96) :
    ∀ b : DisplayBuf, x ∈ l →
      getPixel (l.foldl (fun b i => setPixel i 15 true b) b) x 15 = true := by
  induction l with
  | nil => intro b h; cases h
  | cons a l ih =>
    intro b hx
    rw [List.foldl_cons]
    rcases List.mem_cons.mp hx with rfl | hx
    · exact xAxisFold_getPixel_mono l x 15 _
        (getPixel_setPixel_self b x 15 hx96 (by omega))
    · exact ih _ hx

theorem yAxisFold_getPixel_ne (l : List Nat) (x y : Nat) (hx : x ≠ 0) :
    ∀ b : DisplayBuf,
      getPixel (l.foldl (fun b i => setPixel 0 i true b) b) x y =
        getPixel b x y := by
  induction l with
  | nil => intro b; rfl
  | cons a l ih =>
    intro b
    rw [List.foldl_cons, ih, getPixel_setPixel_other b 0 a x y (Or.inl hx)]

theorem yAxisFold_getPixel_mono (l : List Nat) (x y : Nat) :
    ∀ b : DisplayBuf, getPixel b x y = true →
      getPixel (l.foldl (fun b i => setPixel 0 i true b) b) x y = true := by
  induction l with
  | nil => intro b h; exact h
  | cons a l ih =>
    intro b h
    rw [List.foldl_cons]
    exact ih _ (getPixel_setPixel_mono b 0 a x y h)

theorem yAxisFold_getPixel_mem (l : List Nat) (y : Nat) (hy16 : y < 16) :
    ∀ b : DisplayBuf, y ∈ l →
      getPixel (l.foldl (fun b i => setPixel 0 i true b) b) 0 y = true := by
  induction l with
  | nil => intro b h; cases h
  | cons a l ih =>
    intro b hy
    rw [List.foldl_cons]
    rcases List.mem_cons.mp hy with rfl | hy
    · exact yAxisFold_getPixel_mono l 0 y _
        (getPixel_setPixel_self b 0 y (by omega) hy16)
    · exact ih _ hy

theorem drawXAxis_getPixel_ne (b : DisplayBuf) (x y : Nat) (hy : y ≠ 15) :
    getPixel (drawXAxis b) x y = getPixel b x y :=
  xAxisFold_getPixel_ne _ x y hy b

theorem drawXAxis_getPixel_self (b : DisplayBuf) (x : Nat) (hx : x < 96) :
    getPixel (drawXAxis b) x 15 = true :=
  xAxisFold_getPixel_mem _ x hx b (List.mem_range.mpr hx)

theorem drawYAxis_getPixel_ne (b : DisplayBuf) (x y : Nat) (hx : x ≠ 0) :
    getPixel (drawYAxis b) x y = getPixel b x y :=
  yAxisFold_getPixel_ne _ x y hx b

theorem drawYAxis_getPixel_self (b : DisplayBuf) (y : Nat) (hy : y < 16) :
    getPixel (drawYAxis b) 0 y = true :=
  yAxisFold_getPixel_mem _ y hy b (List.mem_range.mpr hy)

theorem getPixel_shiftClear_last (b : DisplayBuf) (y : Nat) :
    getPixel (shiftClear b) 95 y = false := by
  unfold getPixel shiftClear
  rcases Nat.lt_or_ge y 8 with h8 | h8 <;> simp

theorem yOf_bounds (v : Int) : 0 ≤ yOf v ∧ yOf v ≤ 15 := by
  unfold yOf
  split_ifs <;> omega

theorem yOf_toNat_le (v : Int) : (yOf v).toNat ≤ 15 := by
  have := yOf_bounds v
  omega

/-- The rightmost column after one render: exactly the new sample pixel at
inverted row `15 - y` and the X-axis pixel at row 15. -/
theorem renderStep_col95 (b : DisplayBuf) (v : Int) (r : Nat) (hr : r < 16) :
    getPixel (renderStep b v) 95 r = true ↔
      (r = 15 - (yOf v).toNat ∨ r = 15) := by
  unfold renderStep
  have hy : (yOf v).toNat ≤ 15 := yOf_toNat_le v
  by_cases hr15 : r = 15
  · subst hr15
    rw [drawXAxis_getPixel_self _ 95 (by omega)]
    simp
  · rw [drawXAxis_getPixel_ne _ 95 r hr15, drawYAxis_getPixel_ne _ 95 r (by omega)]
    by_cases hrow : r = 15 - (yOf v).toNat
    · subst hrow
      rw [getPixel_setPixel_self _ 95 _ (by omega) (by omega)]
      simp
    · rw [getPixel_setPixel_other _ 95 _ 95 r (Or.inr hrow),
        getPixel_shiftClear_last]
      simp [hrow, hr15]

/-- Agreement of two display buffers on all columns from `c` on. -/
def AgreeFrom (c : Nat) (b b' : DisplayBuf) : Prop :=
  ∀ j, c ≤ j → j < 96 → b.page0 j = b'.page0 j ∧ b.page1 j = b'.page1 j

theorem agreeFrom_shiftClear (c : Nat) (b b' : DisplayBuf)
    (h : AgreeFrom (c + 1) b b') :
    AgreeFrom c (shiftClear b) (shiftClear b') := by
  intro j hc hj
  unfold shiftClear
  simp only []
  rcases Nat.lt_or_ge j 95 with h95 | h95
  · simp only [if_pos h95]
    exact h (j + 1) (by omega) (by omega)
  · have hj95 : j = 95 := by omega
    subst hj95
    simp

theorem agreeFrom_setPixel (c : Nat) (b b' : DisplayBuf) (x y : Nat)
    (h : AgreeFrom c b b') :
    AgreeFrom c (setPixel x y true b) (setPixel x y true b') := by
  intro j hc hj
  refine ⟨?_, ?_⟩
  · rw [setPixel_true_page0, setPixel_true_page0]
    split_ifs with hcond
    · rw [(h j hc hj).1]
    · exact (h j hc hj).1
  · rw [setPixel_true_page1, setPixel_true_page1]
    split_ifs with hcond
    · rw [(h j hc hj).2]
    · exact (h j hc hj).2

theorem xAxisFold_agree (l : List Nat) (c : Nat) :
    ∀ b b' : DisplayBuf, AgreeFrom c b b' →
      AgreeFrom c (l.foldl (fun b i => setPixel i 15 true b) b)
        (l.foldl (fun b i => setPixel i 15 true b) b') := by
  induction l with
  | nil => intro b b' h; exact h
  | cons a l ih =>
    intro b b' h
    rw [List.foldl_cons, List.foldl_cons]
    exact ih _ _ (agreeFrom_setPixel c b b' a 15 h)

theorem yAxisFold_agree (l : List Nat) (c : Nat) :
    ∀ b b' : DisplayBuf, AgreeFrom c b b' →
      AgreeFrom c (l.foldl (fun b i => setPixel 0 i true b) b)
        (l.foldl (fun b i => setPixel 0 i true b) b') := by
  induction l with
  | nil => intro b b' h; exact h
  | cons a l ih =>
    intro b b' h
    rw [List.foldl_cons, List.foldl_cons]
    exact ih _ _ (agreeFrom_setPixel c b b' 0 a h)

theorem agreeFrom_renderStep (c : Nat) (b b' : DisplayBuf) (v : Int)
    (h : AgreeFrom (c + 1) b b') :
    AgreeFrom c (renderStep b v) (renderStep b' v) := by
  unfold renderStep drawXAxis drawYAxis
  exact xAxisFold_agree _ c _ _ (yAxisFold_agree _ c _ _
    (agreeFrom_setPixel c _ _ _ _ (agreeFrom_shiftClear c b b' h)))

theorem agreeFrom_renderRun (vs : List Int) :
    ∀ (c : Nat) (b b' : DisplayBuf), AgreeFrom (c + vs.length) b b' →
      AgreeFrom c (renderRun b vs) (renderRun b' vs) := by
  induction vs with
  | nil => intro c b b' h; simpa using h
  | cons v vs ih =>
    intro c b b' h
    show AgreeFrom c (renderRun (renderStep b v) vs)
      (renderRun (renderStep b' v) vs)
    apply ih
    apply agreeFrom_renderStep
    have hlen : c + vs.length + 1 = c + (v :: vs).length := by
      rw [List.length_cons]
      omega
    rwa [hlen]

set_option maxRecDepth 1000000 in
/-- Counterexample to claim C5 as stated: the claim says that after `N`
consecutive renders the `(N - 16)`-th sample has scrolled out of the
bitmap, but the bitmap is 96 columns wide, so a sample only leaves after
96 further renders. Concretely, render `N = 17` values: first 35 (which
maps to row 0) and then sixteen values 15 (which map to the bottom
row): the first sample — the `(N - 16)`-th — is still encoded at column
`95 - 16 = 79`, row 0; rendering the same sequence without that first
sample leaves that pixel clear, so the pixel is attributable to sample
`N - 16` alone. -/
theorem claim_C5_counterexample :
    getPixel (renderRun initDisplay ((35 : Int) :: List.replicate 16 15)) 79 0 = true ∧
    getPixel (renderRun initDisplay (List.replicate 16 (15 : Int))) 79 0 = false :=
  ⟨by decide, by decide⟩

/-- Claim C5 as amended: on each filtered value `v` the renderer computes
the clamped height `y = clamp((v - 15) * 15 / 20, 0, 15)`, scrolls the
bitmap one column left, clears the rightmost column and sets its pixel
at inverted row `15 - y`, and redraws the axes. Consequently (1) after
rendering a last value `v` the rightmost column holds exactly the pixel
at row `15 - y` and the X-axis pixel at row 15; (2) after any non-empty
render sequence the axis pixels (all of column 0 and the whole bottom
row) are present regardless of scroll state; and (3) the bitmap after
`N` renders depends only on the last 96 values rendered — so it is the
`(N - 96)`-th sample (not the `(N - 16)`-th, as stated) that has
scrolled out of the leftmost column. -/
theorem claim_C5 :
    (∀ (b : DisplayBuf) (vs : List Int) (v : Int) (r : Nat), r < 16 →
      (getPixel (renderRun b (vs ++ [v])) 95 r = true ↔
        (r = 15 - (yOf v).toNat ∨ r = 15))) ∧
    (∀ (b : DisplayBuf) (vs : List Int), vs ≠ [] →
      (∀ r, r < 16 → getPixel (renderRun b vs) 0 r = true) ∧
      (∀ c, c < 96 → getPixel (renderRun b vs) c 15 = true)) ∧
    (∀ (b b' : DisplayBuf) (us vs : List Int), vs.length = 96 →
      ∀ j, j < 96 →
        (renderRun b (us ++ vs)).page0 j = (renderRun b' vs).page0 j ∧
        (renderRun b (us ++ vs)).page1 j = (renderRun b' vs).page1 j) := by
  have hrun_concat : ∀ (b : DisplayBuf) (vs : List Int) (v : Int),
      renderRun b (vs ++ [v]) = renderStep (renderRun b vs) v := by
    intro b vs v
    unfold renderRun
    rw [List.foldl_append, List.foldl_cons, List.foldl_nil]
  refine ⟨?_, ?_, ?_⟩
  · intro b vs v r hr
    rw [hrun_concat]
    exact renderStep_col95 (renderRun b vs) v r hr
  · intro b vs hne
    rcases List.eq_nil_or_concat vs with rfl | ⟨us, v, rfl⟩
    · exact absurd rfl hne
    rw [List.concat_eq_append, hrun_concat]
    unfold renderStep
    constructor
    · intro r hr
      by_cases hr15 : r = 15
      · subst hr15
        exact drawXAxis_getPixel_self _ 0 (by omega)
      · rw [drawXAxis_getPixel_ne _ 0 r hr15]
        exact drawYAxis_getPixel_self _ r hr
    · intro c hc
      exact drawXAxis_getPixel_self _ c hc
  · intro b b' us vs hlen j hj
    have hsplit : renderRun b (us ++ vs) = renderRun (renderRun b us) vs := by
      unfold renderRun
      rw [List.foldl_append]
    rw [hsplit]
    have hagree : AgreeFrom (0 + vs.length) (renderRun b us) b' := by
      intro i hi hi96
      rw [hlen] at hi
      omega
    have h := agreeFrom_renderRun vs 0 (renderRun b us) b' hagree
    exact h j (by omega) hj

/-- Witness for `claim_C5`: its three parts at concrete inputs — the
rightmost column after rendering 35 onto the empty display, the axes
after rendering a single 20, and column 7 after 96 renders of 0 from
two different initial buffers. -/
theorem claim_C5_witness :
    (getPixel (renderRun initDisplay ([] ++ [(35 : Int)])) 95 0 = true ↔
      (0 = 15 - (yOf 35).toNat ∨ 0 = 15)) ∧
    getPixel (renderRun initDisplay [(20 : Int)]) 0 3 = true ∧
    (renderRun initDisplay (([] : List Int) ++ List.replicate 96 0)).page0 7 =
      (renderRun initDisplay (List.replicate 96 (0 : Int))).page0 7 :=
  ⟨claim_C5.1 initDisplay [] 35 0 (by decide),
    (claim_C5.2.1 initDisplay [20] (by simp)).1 3 (by decide),
    (claim_C5.2.2 initDisplay initDisplay [] (List.replicate 96 0)
      (by simp) 7 (by decide)).1⟩

end RTOSLab
